import Mathlib

/-!
Verification development for the cli-bloom repository.

The repository wraps an approximate full-text search index (Bloom filters per
document) behind a file-system loader:
* `src/errors.rs` classifies `std::io::Error` values into the crate's `Error` enum;
* `src/fs_loader.rs` implements `FsIndex`: `new`, `ingest` (file / directory /
  neither), `search`, `dump`, `restore`, with the private helpers
  `index_directory` and `index_file`.
The Bloom-filter engine itself (tokenisation, filter construction, AND search,
snapshot codec) lives in the external `index-bloom` crate, which is not part of
this repository's sources; those parts are modelled from the specification and
marked as such in their doc comments.

The file system is modelled abstractly: a source is a file (with the outcome of
reading it), a directory (with the outcome of enumerating it), or neither; a
directory entry carries its path, the outcome of `fs::metadata`, the outcome of
opening and reading it, and — to make the absence of recursion expressible — the
entries it would contain if it were itself a directory.
-/

namespace CliBloom

/-! ## Model of the I/O layer -/

/-- Kinds of `std::io::Error`. Only `InvalidData` is distinguished by the code;
a few further kinds are carried so that "any other kind" is a real case split. -/
inductive IoErrorKind where
  | invalidData
  | notFound
  | permissionDenied
  | other
deriving DecidableEq, Repr

/-- An `std::io::Error`: the code only ever inspects its `kind()`. -/
structure IoError where
  kind : IoErrorKind
deriving DecidableEq, Repr

/-- The part of `std::fs::Metadata` the code reads: `is_file()`. -/
structure Metadata where
  is_file : Bool
deriving DecidableEq, Repr

/-- A file-system path. `name` is its textual rendering; `valid_utf8` records
whether `Path::to_str` succeeds on it. -/
structure FsPath where
  name : String
  valid_utf8 : Bool
deriving DecidableEq, Repr

/-- Model of `Path::to_str`: `some` exactly when the path is valid UTF-8. -/
def FsPath.toStr (p : FsPath) : Option String :=
  if p.valid_utf8 then some p.name else none

/-- A directory entry as observed during ingestion: its path, the result of
`fs::metadata`, the result of opening and fully reading it as a string
(`InvalidData` kind when the bytes are not valid UTF-8), and the entries it
would expose if enumerated as a directory (the code never looks at these;
carrying them makes "no recursion" a provable statement). -/
inductive DirEntry where
  | mk (path : FsPath) (meta : Except IoError Metadata)
       (content : Except IoError String) (children : List DirEntry)

/-- Path of a directory entry. -/
def DirEntry.path : DirEntry → FsPath
  | .mk p _ _ _ => p

/-- Result of `fs::metadata` on the entry. -/
def DirEntry.meta : DirEntry → Except IoError Metadata
  | .mk _ m _ _ => m

/-- Result of opening and reading the entry to a string. -/
def DirEntry.content : DirEntry → Except IoError String
  | .mk _ _ c _ => c

/-- Entries the entry would expose if it were enumerated as a directory. -/
def DirEntry.children : DirEntry → List DirEntry
  | .mk _ _ _ cs => cs

/-- Classification of an ingestion source, as decided by `is_file` / `is_dir`:
a regular file together with the outcome of reading it, a directory together
with the outcome of `fs::read_dir` (each yielded entry may itself be an error),
or neither (nonexistent path, socket, ...). -/
inductive Source where
  | file (path : FsPath) (content : Except IoError String)
  | dir (listing : Except IoError (List (Except IoError DirEntry)))
  | neither

/-! ## `src/errors.rs` -/

/-- The crate's `Error` enum from `src/errors.rs`. `IndexError` wraps an error
of the external index engine; its payload is not inspected by the code. -/
inductive Error where
  | Io (e : IoError)
  | IndexInvalidData (e : IoError)
  | IndexError
deriving DecidableEq, Repr

/-- Embeds `impl From<io::Error> for Error` (src/errors.rs lines 33–40):
`InvalidData` becomes `IndexInvalidData`, every other kind becomes `Io`. -/
def Error.fromIo (e : IoError) : Error :=
  match e.kind with
  | IoErrorKind.invalidData => Error.IndexInvalidData e
  | _ => Error.Io e

/-- Embeds `impl fmt::Display for Error` (src/errors.rs lines 23–31). -/
def Error.display : Error → String
  | Error.Io _ => "Error reading file"
  | Error.IndexInvalidData _ => "Error source must be an UTF-8 text file"
  | Error.IndexError => "Error from index"

/-! ## The index engine, modelled from the spec

The `index-bloom` crate is an external dependency, not part of this
repository's sources, so the engine below is modelled from the specification
(sections 3, 4.1–4.4 and 6). -/

/-- Modelled from the spec: the fixed punctuation set stripped by the token
normaliser (parentheses, comma, period, question mark). -/
def punctuation : List Char := ['(', ')', ',', '.', '?']

/-- Splits a character list on whitespace, accumulating the current token in
reverse; empty tokens are discarded. -/
def splitTokens : List Char → List Char → List String
  | [], acc => if acc.isEmpty then [] else [String.mk acc.reverse]
  | c :: rest, acc =>
    if c.isWhitespace then
      if acc.isEmpty then splitTokens rest []
      else String.mk acc.reverse :: splitTokens rest []
    else splitTokens rest (c :: acc)

/-- Modelled from the spec: the token normaliser — strip the punctuation set,
lowercase, split on whitespace discarding empty tokens (spec section 4.1). -/
def normalize (s : String) : List String :=
  splitTokens ((s.data.filter (fun c => !punctuation.contains c)).map Char.toLower) []

/-- First base hash of the double-hashing scheme. Modelled from the spec: the
spec fixes the combining scheme but not the base hash functions, so a concrete
executable polynomial hash is used. -/
def h1 (s : String) : Nat :=
  s.data.foldl (fun a c => (a * 31 + c.toNat) % 1000003) 7

/-- Second base hash of the double-hashing scheme (see `h1`). -/
def h2 (s : String) : Nat :=
  s.data.foldl (fun a c => (a * 37 + c.toNat) % 1000033) 11

/-- Modelled from the spec: a Bloom filter — a bit array of length
`bitfield_size` with hash fan-out `key_size` (spec section 3). -/
structure BloomFilter where
  key_size : Nat
  bitfield : List Bool
  bitfield_size : Nat
deriving DecidableEq, Repr

/-- Modelled from the spec: the `k` bit positions probed for a token,
`(h1 t + i * h2 t) mod m` for `i` in `0..k` (spec section 4.2). -/
def probePositions (m k : Nat) (t : String) : List Nat :=
  (List.range k).map (fun i => (h1 t + i * h2 t) % m)

/-- Modelled from the spec: insert a token — set each probed bit. -/
def BloomFilter.insertToken (f : BloomFilter) (t : String) : BloomFilter :=
  let bits := (probePositions f.bitfield_size f.key_size t).foldl
    (fun bs i => bs.set i true) f.bitfield
  { f with bitfield := bits }

/-- Modelled from the spec: membership test — true iff every probed bit is set. -/
def BloomFilter.containsToken (f : BloomFilter) (t : String) : Bool :=
  (probePositions f.bitfield_size f.key_size t).all (fun i => f.bitfield.getD i false)

/-- Base-two logarithm with an explicit fuel argument, so that it is
structurally recursive and reduces inside the kernel. -/
def log2fuel : Nat → Nat → Nat
  | 0, _ => 0
  | fuel + 1, n => if n ≤ 1 then 0 else log2fuel fuel (n / 2) + 1

/-- Modelled from the spec: filter sizing from the distinct-token count and the
target error rate. The spec's optimal-sizing relations use real logarithms;
they are abstracted here by an executable integer surrogate with the same
floors `m ≥ 1`, `k ≥ 1`. No claim settled below depends on the concrete
values of `m` and `k`. -/
def filterParams (n : Nat) (p : Rat) : Nat × Nat :=
  let invp := p.den / max 1 p.num.toNat
  let bitsPerElem := 3 * log2fuel (invp + 2) (invp + 2) / 2 + 1
  (max 1 (n * bitsPerElem), max 1 (7 * bitsPerElem / 10))

/-- Modelled from the spec: build a filter for one document — size it from the
distinct-token count and the error rate, then insert every token
(spec section 4.2). -/
def BloomFilter.build (tokens : List String) (error_rate : Rat) : BloomFilter :=
  let n := tokens.dedup.length
  let mk := filterParams n error_rate
  tokens.foldl BloomFilter.insertToken
    { key_size := mk.2, bitfield := List.replicate mk.1 false, bitfield_size := mk.1 }

/-- Modelled from the spec: a document index — a configured error rate plus an
insertion-ordered map from document key to Bloom filter (spec section 3). -/
structure Index where
  error_rate : Rat
  bloom_filters : List (String × BloomFilter)
deriving DecidableEq, Repr

/-- Document keys of the index, in iteration (insertion) order. -/
def Index.keys (idx : Index) : List String :=
  idx.bloom_filters.map Prod.fst

/-- Modelled from the spec: store a filter under a key, overwriting any prior
filter for that key but preserving its original position (spec section 4.3). -/
def upsert : List (String × BloomFilter) → String → BloomFilter → List (String × BloomFilter)
  | [], k, f => [(k, f)]
  | (k0, f0) :: rest, k, f =>
    if k0 = k then (k0, f) :: rest else (k0, f0) :: upsert rest k f

/-- Embeds `Index::new` of the engine (spec: an empty index with the given
error rate). -/
def Index.new (error_rate : Rat) : Index :=
  { error_rate := error_rate, bloom_filters := [] }

/-- Modelled from the spec: `DocumentIndex.insert` — tokenise the content,
build a filter sized to the index's error rate, store it under the key
(spec section 4.3). The spec gives insertion no failure semantics, so it is
total here. -/
def Index.ingest (idx : Index) (key content : String) : Index :=
  let f := BloomFilter.build (normalize content) idx.error_rate
  { idx with bloom_filters := upsert idx.bloom_filters key f }

/-- Modelled from the spec: `DocumentIndex.search` — tokenise the query; zero
tokens yield the no-match indicator; otherwise collect, in iteration order, the
keys whose filter contains every token; an empty collection becomes the
no-match indicator (spec section 4.3). -/
def Index.search (idx : Index) (query : String) : Option (List String) :=
  let toks := normalize query
  if toks.isEmpty then none
  else
    let hits := (idx.bloom_filters.filter
      (fun kf => toks.all (fun t => kf.2.containsToken t))).map Prod.fst
    if hits.isEmpty then none else some hits

/-! ## The snapshot codec, modelled from the spec

The serialized form (spec sections 3, 4.4 and 6): the error rate plus, per
document key in insertion order, `key_size`, the bit array packed into bytes,
and `bitfield_size`. Deserialization fails with `MalformedSnapshot` when the
structure does not match the expected shape. -/

/-- Value of a byte from up to eight bits, least significant bit first. -/
def bitsToByte (l : List Bool) : Nat :=
  l.foldr (fun b acc => (if b then 1 else 0) + 2 * acc) 0

/-- Low `w` bits of a natural number, least significant first. -/
def natToBits : Nat → Nat → List Bool
  | 0, _ => []
  | w + 1, n => decide (n % 2 = 1) :: natToBits w (n / 2)

/-- Eight bits of a byte, least significant first. -/
def byteToBits (n : Nat) : List Bool := natToBits 8 n

/-- Packs a bit array into bytes of eight bits, least significant bit first;
a trailing group of fewer than eight bits is padded with zeros. -/
def pack (bits : List Bool) : List Nat :=
  if h : bits = [] then []
  else bitsToByte (bits.take 8) :: pack (bits.drop 8)
termination_by bits.length
decreasing_by
  have hpos : 0 < bits.length := List.length_pos.mpr h
  simp only [List.length_drop]
  omega

/-- Unpacks `size` bits from a packed byte sequence. -/
def unpack (bytes : List Nat) (size : Nat) : List Bool :=
  ((bytes.map byteToBits).flatten).take size

/-- Modelled from the spec: the serialized form of one Bloom filter —
`key_size`, packed `bitfield`, `bitfield_size` (spec section 6). -/
structure FilterRepr where
  key_size : Nat
  bitfield : List Nat
  bitfield_size : Nat
deriving DecidableEq, Repr

/-- Modelled from the spec: an index snapshot — the error rate plus the
serialized filters keyed by document, in insertion order (spec section 6). -/
structure Snapshot where
  error_rate : Rat
  bloom_filters : List (String × FilterRepr)
deriving DecidableEq, Repr

/-- Codec failure: the snapshot does not conform to the expected structure. -/
inductive CodecError where
  | malformedSnapshot
deriving DecidableEq, Repr

/-- Modelled from the spec: serialize one filter (spec section 6). -/
def serializeFilter (f : BloomFilter) : FilterRepr :=
  { key_size := f.key_size, bitfield := pack f.bitfield, bitfield_size := f.bitfield_size }

/-- Modelled from the spec: `serialize` — the snapshot of an index, preserving
per-document insertion order (spec section 4.4). -/
def serializeIndex (idx : Index) : Snapshot :=
  { error_rate := idx.error_rate
    bloom_filters := idx.bloom_filters.map (fun kf => (kf.1, serializeFilter kf.2)) }

/-- Modelled from the spec: deserialize one filter, checking that the byte
sequence has exactly the length the bit count demands and that every byte is a
byte (spec section 4.4: malformed structure is surfaced, not defaulted). -/
def deserializeFilter (r : FilterRepr) : Except CodecError BloomFilter :=
  if r.bitfield.length = (r.bitfield_size + 7) / 8 ∧ r.bitfield.all (fun b => b < 256) then
    Except.ok { key_size := r.key_size
                bitfield := unpack r.bitfield r.bitfield_size
                bitfield_size := r.bitfield_size }
  else Except.error CodecError.malformedSnapshot

/-- Deserializes the per-document filters of a snapshot, failing on the first
malformed entry. -/
def deserializeFilters : List (String × FilterRepr) → Except CodecError (List (String × BloomFilter))
  | [] => Except.ok []
  | (k, r) :: rest =>
    match deserializeFilter r, deserializeFilters rest with
    | Except.ok f, Except.ok fs => Except.ok ((k, f) :: fs)
    | Except.error e, _ => Except.error e
    | _, Except.error e => Except.error e

/-- Modelled from the spec: `deserialize` — rebuild an index from a snapshot,
failing with `MalformedSnapshot` on a malformed structure, including an error
rate outside (0, 1) (spec section 4.4). -/
def deserializeIndex (s : Snapshot) : Except CodecError Index :=
  if 0 < s.error_rate ∧ s.error_rate < 1 then
    match deserializeFilters s.bloom_filters with
    | Except.ok fs => Except.ok { error_rate := s.error_rate, bloom_filters := fs }
    | Except.error e => Except.error e
  else Except.error CodecError.malformedSnapshot

/-- Well-formedness of an index as produced by this system: the error rate is
in (0, 1) and every filter's bit array has exactly its declared length. -/
def Index.WF (idx : Index) : Prop :=
  0 < idx.error_rate ∧ idx.error_rate < 1 ∧
    ∀ kf ∈ idx.bloom_filters, kf.2.bitfield.length = kf.2.bitfield_size

/-! ## `src/fs_loader.rs` -/

/-- Outcome of a call that may mutate `self.index`: normal return, an error
return carrying the state of the index at that point, or a panic (the state is
carried so that "the index is unchanged" is expressible). -/
inductive Outcome where
  | ok (idx : Index)
  | err (e : Error) (idx : Index)
  | panicked (msg : String) (idx : Index)
deriving DecidableEq, Repr

/-- Embeds `FsIndex::index_file` (src/fs_loader.rs lines 173–179): open and
read the file (the `?` operator converts an I/O failure through
`Error::from`), render the path with `to_str().unwrap()` — panicking when the
path is not valid UTF-8 — and insert the content under that key. The external
engine's insert is total (spec section 4.3), so its error path does not arise. -/
def FsIndex.index_file (idx : Index) (path : FsPath) (content : Except IoError String) : Outcome :=
  match content with
  | Except.error e => Outcome.err (Error.fromIo e) idx
  | Except.ok c =>
    match path.toStr with
    | some s => Outcome.ok (idx.ingest s c)
    | none => Outcome.panicked "called Option::unwrap on a None value" idx

/-- Embeds the entry loop of `FsIndex::index_directory` (src/fs_loader.rs
lines 156–169): a failed entry or a failed `fs::metadata` aborts with the
converted error; a regular-file entry is indexed, an `IndexInvalidData`
failure being skipped and any other failure aborting; a non-file entry is
skipped. -/
def FsIndex.index_entries : Index → List (Except IoError DirEntry) → Outcome
  | idx, [] => Outcome.ok idx
  | idx, Except.error e :: _ => Outcome.err (Error.fromIo e) idx
  | idx, Except.ok entry :: rest =>
    match entry.meta with
    | Except.error e => Outcome.err (Error.fromIo e) idx
    | Except.ok md =>
      if md.is_file then
        match FsIndex.index_file idx entry.path entry.content with
        | Outcome.ok idx2 => FsIndex.index_entries idx2 rest
        | Outcome.err (Error.IndexInvalidData _) _ => FsIndex.index_entries idx rest
        | Outcome.err e idx2 => Outcome.err e idx2
        | Outcome.panicked m idx2 => Outcome.panicked m idx2
      else FsIndex.index_entries idx rest

/-- Embeds `FsIndex::index_directory` (src/fs_loader.rs lines 155–171): a
failed `fs::read_dir` aborts with the converted error, otherwise the entries
are processed in the order the enumeration yields them. -/
def FsIndex.index_directory (idx : Index)
    (listing : Except IoError (List (Except IoError DirEntry))) : Outcome :=
  match listing with
  | Except.error e => Outcome.err (Error.fromIo e) idx
  | Except.ok entries => FsIndex.index_entries idx entries

/-- Embeds `FsIndex::ingest` (src/fs_loader.rs lines 51–66): classify the
source; index a file or a directory, turning an error return into a panic with
the error's display message; panic outright on any other source. -/
def FsIndex.ingest (idx : Index) (src : Source) : Outcome :=
  match src with
  | Source.file p c =>
    match FsIndex.index_file idx p c with
    | Outcome.ok idx2 => Outcome.ok idx2
    | Outcome.err e idx2 => Outcome.panicked (Error.display e) idx2
    | Outcome.panicked m idx2 => Outcome.panicked m idx2
  | Source.dir listing =>
    match FsIndex.index_directory idx listing with
    | Outcome.ok idx2 => Outcome.ok idx2
    | Outcome.err e idx2 => Outcome.panicked (Error.display e) idx2
    | Outcome.panicked m idx2 => Outcome.panicked m idx2
  | Source.neither => Outcome.panicked "source type must be file or directory" idx

/-- Embeds `FsIndex::search` (src/fs_loader.rs lines 95–100): delegate to the
engine's search; the engine's search is total (spec section 4.3), so the panic
branch on its error return does not arise. -/
def FsIndex.search (idx : Index) (keywords : String) : Option (List String) :=
  idx.search keywords

/-- Embeds `FsIndex::new` (src/fs_loader.rs lines 26–30). -/
def FsIndex.new (error_rate : Rat) : Index :=
  Index.new error_rate

/-- Document keys of the regular-file entries at the first level of a listing:
the keys that directory ingestion can ever add. -/
def topLevelFileKeys : List (Except IoError DirEntry) → List String
  | [] => []
  | Except.ok (DirEntry.mk p (Except.ok md) _ _) :: rest =>
    if md.is_file then p.name :: topLevelFileKeys rest else topLevelFileKeys rest
  | _ :: rest => topLevelFileKeys rest

/-- Document keys of a successful outcome, in iteration order. -/
def Outcome.keysOf : Outcome → Option (List String)
  | Outcome.ok idx => some idx.keys
  | _ => none

/-! ## Sample inputs used by witnesses and counterexamples -/

/-- Sample error rate, one percent. Built through the raw constructor (with a
normalization proof) so that concrete evaluation never has to unfold `Nat.gcd`. -/
def sampleRate : Rat := ⟨1, 100, by decide, by simpa using Nat.coprime_one_left 100⟩

/-- Sample empty index. -/
def emptyIdx : Index := Index.new sampleRate

/-- Sample valid UTF-8 path. -/
def pathA : FsPath := { name := "a.txt", valid_utf8 := true }

/-- Second sample valid UTF-8 path. -/
def pathB : FsPath := { name := "b.txt", valid_utf8 := true }

/-- Sample path that is not valid UTF-8. -/
def pathBad : FsPath := { name := "bad", valid_utf8 := false }

/-- Sample `InvalidData` I/O error (non-UTF-8 file content). -/
def eInvalid : IoError := { kind := IoErrorKind.invalidData }

/-- Sample I/O error of a kind other than `InvalidData`. -/
def eOther : IoError := { kind := IoErrorKind.permissionDenied }

/-- Sample readable text-file entry at `a.txt`. -/
def entryA : DirEntry :=
  DirEntry.mk pathA (Except.ok { is_file := true }) (Except.ok "word1 word2") []

/-- Sample readable text-file entry at `b.txt`. -/
def entryB : DirEntry :=
  DirEntry.mk pathB (Except.ok { is_file := true }) (Except.ok "word4") []

/-- Sample binary (non-UTF-8) file entry. -/
def entryBinary : DirEntry :=
  DirEntry.mk pathB (Except.ok { is_file := true }) (Except.error eInvalid) []

/-- Sample file entry whose read fails with a non-`InvalidData` error. -/
def entryBroken : DirEntry :=
  DirEntry.mk pathB (Except.ok { is_file := true }) (Except.error eOther) []

/-- Sample subdirectory entry containing a readable file. -/
def entrySubdir : DirEntry :=
  DirEntry.mk pathB (Except.ok { is_file := false }) (Except.error eOther) [entryA]

/-- Sample one-document index. -/
def sampleIdx : Index := emptyIdx.ingest "a.txt" "word1 word2"

/-! ## Helper lemmas -/

theorem fromIo_of_invalidData (e : IoError) (h : e.kind = IoErrorKind.invalidData) :
    Error.fromIo e = Error.IndexInvalidData e := by
  obtain ⟨k⟩ := e
  cases k <;> simp_all [Error.fromIo]

theorem fromIo_of_not_invalidData (e : IoError) (h : e.kind ≠ IoErrorKind.invalidData) :
    Error.fromIo e = Error.Io e := by
  obtain ⟨k⟩ := e
  cases k <;> simp_all [Error.fromIo]

theorem keys_upsert_mem (l : List (String × BloomFilter)) (k : String) (f : BloomFilter) :
    k ∈ (upsert l k f).map Prod.fst := by
  induction l with
  | nil => simp [upsert]
  | cons kf rest ih =>
    obtain ⟨k0, f0⟩ := kf
    by_cases h : k0 = k <;> simp [upsert, h, ih]

theorem keys_upsert_subset (l : List (String × BloomFilter)) (k x : String) (f : BloomFilter)
    (h : x ∈ (upsert l k f).map Prod.fst) : x ∈ l.map Prod.fst ∨ x = k := by
  induction l with
  | nil => simp [upsert] at h; simp [h]
  | cons kf rest ih =>
    obtain ⟨k0, f0⟩ := kf
    by_cases h0 : k0 = k
    · simp [upsert, h0] at h
      rcases h with h | h
      · simp [h, h0]
      · simp [h]
    · simp [upsert, h0] at h
      rcases h with h | ⟨f1, hmem⟩
      · simp [h]
      · rcases ih (List.mem_map.mpr ⟨(x, f1), hmem, rfl⟩) with h2 | h2
        · simp [h2]
        · simp [h2]

theorem keys_upsert_fresh (l : List (String × BloomFilter)) (k : String) (f : BloomFilter)
    (h : k ∉ l.map Prod.fst) : (upsert l k f).map Prod.fst = l.map Prod.fst ++ [k] := by
  induction l with
  | nil => simp [upsert]
  | cons kf rest ih =>
    obtain ⟨k0, f0⟩ := kf
    simp only [List.map_cons, List.mem_cons] at h
    push_neg at h
    have hne : k0 ≠ k := fun hk => h.1 hk.symm
    simp [upsert, hne, ih h.2]

theorem length_natToBits : ∀ (w n : Nat), (natToBits w n).length = w
  | 0, _ => rfl
  | w + 1, n => by simp [natToBits, length_natToBits w (n / 2)]

theorem bitsToByte_lt (l : List Bool) : bitsToByte l < 2 ^ l.length := by
  induction l with
  | nil => simp [bitsToByte]
  | cons b t ih =>
    have hb : bitsToByte (b :: t) = (if b then 1 else 0) + 2 * bitsToByte t := rfl
    rw [hb, List.length_cons, pow_succ]
    cases b
    · simpa using by omega
    · simpa using by omega

theorem natToBits_take : ∀ (l : List Bool) (w : Nat), l.length ≤ w →
    (natToBits w (bitsToByte l)).take l.length = l := by
  intro l
  induction l with
  | nil => intro w hw; simp
  | cons b t ih =>
    intro w hw
    match w, hw with
    | w1 + 1, hw =>
      have hle : t.length ≤ w1 := Nat.le_of_succ_le_succ (by simpa using hw)
      cases b
      · have hb : bitsToByte (false :: t) = 2 * bitsToByte t := by simp [bitsToByte]
        rw [hb]
        show (decide ((2 * bitsToByte t) % 2 = 1)
            :: natToBits w1 ((2 * bitsToByte t) / 2)).take (t.length + 1) = false :: t
        have h1 : (2 * bitsToByte t) % 2 = 0 := by omega
        have h2 : (2 * bitsToByte t) / 2 = bitsToByte t := by omega
        rw [h1, h2]
        simp [ih w1 hle]
      · have hb : bitsToByte (true :: t) = 1 + 2 * bitsToByte t := by simp [bitsToByte]
        rw [hb]
        show (decide ((1 + 2 * bitsToByte t) % 2 = 1)
            :: natToBits w1 ((1 + 2 * bitsToByte t) / 2)).take (t.length + 1) = true :: t
        have h1 : (1 + 2 * bitsToByte t) % 2 = 1 := by omega
        have h2 : (1 + 2 * bitsToByte t) / 2 = bitsToByte t := by omega
        rw [h1, h2]
        simp [ih w1 hle]

theorem pack_nil : pack [] = [] := by
  rw [pack]
  simp

theorem pack_eq_cons (bits : List Bool) (h : bits ≠ []) :
    pack bits = bitsToByte (bits.take 8) :: pack (bits.drop 8) := by
  rw [pack]
  simp [h]

theorem pack_spec : ∀ (fuel : Nat) (bits : List Bool), bits.length ≤ fuel →
    ((pack bits).length = (bits.length + 7) / 8
     ∧ (∀ x ∈ pack bits, x < 256)
     ∧ unpack (pack bits) bits.length = bits) := by
  intro fuel
  induction fuel with
  | zero =>
    intro bits hb
    have hnil : bits = [] := List.eq_nil_of_length_eq_zero (Nat.le_zero.mp hb)
    subst hnil
    exact ⟨by simp [pack_nil], by simp [pack_nil], by rw [pack_nil]; rfl⟩
  | succ fuel ih =>
    intro bits hb
    by_cases hnil : bits = []
    · subst hnil
      exact ⟨by simp [pack_nil], by simp [pack_nil], by rw [pack_nil]; rfl⟩
    · have hcons := pack_eq_cons bits hnil
      have hpos : 0 < bits.length := List.length_pos.mpr hnil
      have hdroplen : (bits.drop 8).length = bits.length - 8 := List.length_drop 8 bits
      have hdrople : (bits.drop 8).length ≤ fuel := by omega
      obtain ⟨ihlen, ihall, ihun⟩ := ih (bits.drop 8) hdrople
      have h256 : (2 : Nat) ^ 8 = 256 := by norm_num
      refine ⟨?_, ?_, ?_⟩
      · rw [hcons]
        simp only [List.length_cons, ihlen, hdroplen]
        omega
      · intro x hx
        rw [hcons] at hx
        rcases List.mem_cons.mp hx with hh | hh
        · subst hh
          have h1 := bitsToByte_lt (bits.take 8)
          have h2 : (bits.take 8).length ≤ 8 := by
            simp [List.length_take]
          have h3 : (2 : Nat) ^ (bits.take 8).length ≤ 2 ^ 8 :=
            Nat.pow_le_pow_right (by norm_num) h2
          omega
        · exact ihall x hh
      · rw [hcons]
        unfold unpack
        simp only [List.map_cons, List.flatten_cons]
        rw [List.take_append_eq_append_take]
        have hlen8 : (byteToBits (bitsToByte (bits.take 8))).length = 8 :=
          length_natToBits 8 _
        by_cases h8 : 8 ≤ bits.length
        · have htake8len : (bits.take 8).length = 8 := by
            simp [List.length_take]
            omega
          have hA : byteToBits (bitsToByte (bits.take 8)) = bits.take 8 := by
            have hstep := natToBits_take (bits.take 8) 8 (le_of_eq htake8len)
            rw [htake8len] at hstep
            rw [List.take_of_length_le (le_of_eq (length_natToBits 8 _))] at hstep
            exact hstep
          rw [List.take_of_length_le (by rw [hlen8]; exact h8)]
          rw [hlen8, hA]
          have hrest : ((pack (bits.drop 8)).map byteToBits).flatten.take (bits.length - 8)
              = bits.drop 8 := by
            have := ihun
            unfold unpack at this
            rw [hdroplen] at this
            exact this
          rw [hrest]
          exact List.take_append_drop 8 bits
        · have hlt : bits.length ≤ 8 := le_of_not_le h8
          have htake : bits.take 8 = bits := List.take_of_length_le hlt
          rw [htake] at hlen8 ⊢
          have hA : (byteToBits (bitsToByte bits)).take bits.length = bits :=
            natToBits_take bits 8 hlt
          rw [hlen8, Nat.sub_eq_zero_of_le hlt, List.take_zero, List.append_nil, hA]

theorem deserializeFilter_serializeFilter (f : BloomFilter)
    (h : f.bitfield.length = f.bitfield_size) :
    deserializeFilter (serializeFilter f) = Except.ok f := by
  obtain ⟨hlen, hall, hun⟩ := pack_spec f.bitfield.length f.bitfield (le_refl _)
  have hun2 : unpack (pack f.bitfield) f.bitfield_size = f.bitfield := by
    rw [← h]
    exact hun
  simp only [deserializeFilter, serializeFilter]
  rw [if_pos ?side]
  case side =>
    constructor
    · rw [hlen, h]
    · rw [List.all_eq_true]
      intro x hx
      exact decide_eq_true (hall x hx)
  rw [hun2]

theorem deserializeFilters_map (l : List (String × BloomFilter))
    (h : ∀ kf ∈ l, kf.2.bitfield.length = kf.2.bitfield_size) :
    deserializeFilters (l.map (fun kf => (kf.1, serializeFilter kf.2))) = Except.ok l := by
  induction l with
  | nil => rfl
  | cons kf rest ih =>
    obtain ⟨k, f⟩ := kf
    have h1 := deserializeFilter_serializeFilter f (h (k, f) (List.mem_cons_self _ _))
    have h2 := ih (fun kf2 hm => h kf2 (List.mem_cons_of_mem _ hm))
    simp only [List.map_cons]
    simp [deserializeFilters, h1, h2]

theorem length_bits_foldl_set (ps : List Nat) : ∀ (bs : List Bool),
    (ps.foldl (fun bs2 i => bs2.set i true) bs).length = bs.length := by
  induction ps with
  | nil => intro bs; rfl
  | cons p rest ih =>
    intro bs
    rw [List.foldl_cons, ih (bs.set p true), List.length_set]

theorem foldl_insertToken_fields (ts : List String) : ∀ (f : BloomFilter),
    ((ts.foldl BloomFilter.insertToken f).bitfield.length = f.bitfield.length)
  ∧ ((ts.foldl BloomFilter.insertToken f).bitfield_size = f.bitfield_size) := by
  induction ts with
  | nil => intro f; exact ⟨rfl, rfl⟩
  | cons t rest ih =>
    intro f
    rw [List.foldl_cons]
    obtain ⟨ha, hb⟩ := ih (f.insertToken t)
    refine ⟨?_, hb⟩
    rw [ha]
    exact length_bits_foldl_set _ f.bitfield

theorem build_length (ts : List String) (er : Rat) :
    (BloomFilter.build ts er).bitfield.length = (BloomFilter.build ts er).bitfield_size := by
  unfold BloomFilter.build
  obtain ⟨ha, hb⟩ := foldl_insertToken_fields ts
    { key_size := (filterParams ts.dedup.length er).2
      bitfield := List.replicate (filterParams ts.dedup.length er).1 false
      bitfield_size := (filterParams ts.dedup.length er).1 }
  rw [ha, hb]
  exact List.length_replicate _ _

theorem upsert_ball (P : String × BloomFilter → Prop) (l : List (String × BloomFilter))
    (k : String) (f : BloomFilter) (hl : ∀ kf ∈ l, P kf) (hf : P (k, f)) :
    ∀ kf ∈ upsert l k f, P kf := by
  induction l with
  | nil =>
    intro kf hm
    simp [upsert] at hm
    rw [hm]
    exact hf
  | cons kf0 rest ih =>
    obtain ⟨k0, f0⟩ := kf0
    intro kf hm
    by_cases h0 : k0 = k
    · simp only [upsert, if_pos h0] at hm
      rcases List.mem_cons.mp hm with hh | hh
      · subst hh
        rw [h0]
        exact hf
      · exact hl kf (List.mem_cons_of_mem _ hh)
    · simp only [upsert, if_neg h0] at hm
      rcases List.mem_cons.mp hm with hh | hh
      · rw [hh]
        exact hl (k0, f0) (List.mem_cons_self _ _)
      · exact ih (fun kf2 hm2 => hl kf2 (List.mem_cons_of_mem _ hm2)) kf hh

/-- Well-formedness is established at construction: `new` yields a well-formed
index for any error rate in (0, 1). -/
theorem new_wf (er : Rat) (h1 : 0 < er) (h2 : er < 1) : (Index.new er).WF := by
  refine ⟨h1, h2, ?_⟩
  intro kf hm
  simp [Index.new] at hm

/-- Well-formedness is preserved by ingestion, so every index produced by this
system from `new` by `ingest` calls is well-formed. -/
theorem ingest_wf (idx : Index) (k c : String) (h : idx.WF) : (idx.ingest k c).WF := by
  obtain ⟨h1, h2, h3⟩ := h
  refine ⟨h1, h2, ?_⟩
  intro kf hm
  exact upsert_ball (fun kf2 => kf2.2.bitfield.length = kf2.2.bitfield_size)
    idx.bloom_filters k (BloomFilter.build (normalize c) idx.error_rate) h3
    (build_length (normalize c) idx.error_rate) kf hm

/-! ## Claim theorems -/

/-- Claim C10: an I/O error arising during ingestion is classified as the
invalid-encoding error (`IndexInvalidData`) if and only if its kind is
`InvalidData`; every other kind is classified as the generic fatal `Io` error;
consequently the directory-mode skip applies exactly to `InvalidData` errors. -/
theorem c10_error_classification (e : IoError) :
    (Error.fromIo e = Error.IndexInvalidData e ↔ e.kind = IoErrorKind.invalidData)
  ∧ (e.kind ≠ IoErrorKind.invalidData → Error.fromIo e = Error.Io e)
  ∧ ∀ (idx : Index) (p : FsPath) (children : List DirEntry)
      (rest : List (Except IoError DirEntry)),
      FsIndex.index_entries idx
          (Except.ok (DirEntry.mk p (Except.ok { is_file := true }) (Except.error e) children) :: rest)
        = if e.kind = IoErrorKind.invalidData then FsIndex.index_entries idx rest
          else Outcome.err (Error.Io e) idx := by
  refine ⟨?_, fromIo_of_not_invalidData e, ?_⟩
  · constructor
    · intro h
      obtain ⟨k⟩ := e
      cases k <;> simp_all [Error.fromIo]
    · exact fromIo_of_invalidData e
  · intro idx p children rest
    by_cases h : e.kind = IoErrorKind.invalidData
    · simp [FsIndex.index_entries, FsIndex.index_file, DirEntry.meta, DirEntry.content,
        DirEntry.path, fromIo_of_invalidData e h, h]
    · simp [FsIndex.index_entries, FsIndex.index_file, DirEntry.meta, DirEntry.content,
        DirEntry.path, fromIo_of_not_invalidData e h, h]

/-- Witness for C10 at the two concrete error kinds. -/
theorem c10_error_classification_witness :
    Error.fromIo eInvalid = Error.IndexInvalidData eInvalid
  ∧ Error.fromIo eOther = Error.Io eOther
  ∧ FsIndex.index_entries emptyIdx [Except.ok entryBinary]
      = Outcome.ok emptyIdx := by
  refine ⟨(c10_error_classification eInvalid).1.mpr rfl,
          (c10_error_classification eOther).2.1 (by decide), ?_⟩
  have h := (c10_error_classification eInvalid).2.2 emptyIdx pathB [] []
  simpa using h

/-- Claim C7: ingesting a source that is neither a regular file nor a
directory fails with the unsupported-source error (realized as a panic with
the corresponding message) and leaves the index unchanged. -/
theorem c7_unsupported_source (idx : Index) :
    FsIndex.ingest idx Source.neither
      = Outcome.panicked "source type must be file or directory" idx := rfl

/-- Claim C3: ingesting a single-file source whose content is not valid
decodable text fails with the `InvalidEncoding` error (fatal, surfaced with
its display message) and leaves the index unchanged. -/
theorem c3_single_file_invalid_encoding (idx : Index) (p : FsPath) (e : IoError)
    (h : e.kind = IoErrorKind.invalidData) :
    FsIndex.ingest idx (Source.file p (Except.error e))
      = Outcome.panicked (Error.display (Error.IndexInvalidData e)) idx := by
  simp [FsIndex.ingest, FsIndex.index_file, fromIo_of_invalidData e h]

/-- Witness for C3 at a concrete binary file. -/
theorem c3_single_file_invalid_encoding_witness :
    FsIndex.ingest emptyIdx (Source.file pathA (Except.error eInvalid))
      = Outcome.panicked "Error source must be an UTF-8 text file" emptyIdx :=
  c3_single_file_invalid_encoding emptyIdx pathA eInvalid rfl

/-- Claim C9: for a successfully ingested file the stored document key is
exactly the path rendered as a string, and that key ends up among the index
keys; for a path that is not valid UTF-8 the `to_str().unwrap()` call panics
instead of returning one of the specified errors. -/
theorem c9_document_key_is_path (idx : Index) (p : FsPath) (c : String) :
    (∀ s, p.toStr = some s →
       FsIndex.index_file idx p (Except.ok c) = Outcome.ok (idx.ingest s c)
         ∧ s = p.name ∧ s ∈ (idx.ingest s c).keys)
  ∧ (p.toStr = none →
       FsIndex.index_file idx p (Except.ok c)
         = Outcome.panicked "called Option::unwrap on a None value" idx) := by
  constructor
  · intro s hs
    have hname : s = p.name := by
      by_cases hv : p.valid_utf8 <;> simp_all [FsPath.toStr]
    refine ⟨?_, hname, ?_⟩
    · simp [FsIndex.index_file, hs]
    · simpa [Index.keys, Index.ingest] using
        keys_upsert_mem idx.bloom_filters s (BloomFilter.build (normalize c) idx.error_rate)
  · intro hs
    simp [FsIndex.index_file, hs]

/-- Witness for C9 at a concrete valid path and a concrete invalid path. -/
theorem c9_document_key_is_path_witness :
    (FsIndex.index_file emptyIdx pathA (Except.ok "word1 word2")
       = Outcome.ok (emptyIdx.ingest "a.txt" "word1 word2")
     ∧ "a.txt" = pathA.name ∧ "a.txt" ∈ (emptyIdx.ingest "a.txt" "word1 word2").keys)
  ∧ FsIndex.index_file emptyIdx pathBad (Except.ok "word1 word2")
      = Outcome.panicked "called Option::unwrap on a None value" emptyIdx :=
  ⟨(c9_document_key_is_path emptyIdx pathA "word1 word2").1 "a.txt" rfl,
   (c9_document_key_is_path emptyIdx pathBad "word1 word2").2 rfl⟩

/-- Claim C8: search is pure — its result is a function of the normalized
query tokens and the stored filters alone (in particular the error rate and
any other index state are irrelevant), and in this state-passing embedding it
returns a value for every index and query without touching the index. -/
theorem c8_search_pure (idx1 idx2 : Index) (q1 q2 : String)
    (hf : idx1.bloom_filters = idx2.bloom_filters)
    (hq : normalize q1 = normalize q2) :
    FsIndex.search idx1 q1 = FsIndex.search idx2 q2 := by
  simp only [FsIndex.search, Index.search, hf, hq]

/-- Witness for C8: two indexes with equal filters but different error rates,
and two queries with equal normalizations, search identically. -/
theorem c8_search_pure_witness :
    FsIndex.search sampleIdx "(Word1)" = FsIndex.search { sampleIdx with error_rate := 1 / 2 } "word1" :=
  c8_search_pure sampleIdx { sampleIdx with error_rate := 1 / 2 } "(Word1)" "word1" rfl (by decide)

/-- Claim C4: a query that normalizes to zero tokens yields the no-match
indicator; so does a query no stored document matches; a successful result is
a non-empty list of document keys in index order (a sublist of the keys). -/
theorem c4_no_match_signal (idx : Index) (q : String) :
    (normalize q = [] → FsIndex.search idx q = none)
  ∧ ((idx.bloom_filters.filter
        (fun kf => (normalize q).all (fun t => kf.2.containsToken t))) = [] →
      FsIndex.search idx q = none)
  ∧ (∀ l, FsIndex.search idx q = some l → l ≠ [] ∧ List.Sublist l idx.keys) := by
  refine ⟨?_, ?_, ?_⟩
  · intro h
    simp [FsIndex.search, Index.search, h]
  · intro h
    by_cases h0 : normalize q = []
    · simp [FsIndex.search, Index.search, h0]
    · simp [FsIndex.search, Index.search, h0, h]
  · intro l hl
    simp only [FsIndex.search, Index.search] at hl
    split at hl
    · exact absurd hl (by simp)
    · split at hl
      · exact absurd hl (by simp)
      · rename_i hne
        obtain rfl := Option.some.inj hl
        refine ⟨?_, List.Sublist.map Prod.fst (List.filter_sublist idx.bloom_filters)⟩
        intro hnil
        rw [hnil] at hne
        exact hne rfl

/-- Claim C1: during directory ingestion, a regular-file entry whose read
fails with the invalid-data (non-decodable text) kind is skipped and ingestion
continues with the remaining entries; a read failure of any other kind, a
failed directory entry, a failed metadata call, and a failed directory
enumeration each abort the whole ingestion at once, propagating the converted
error with the index as it stood. -/
theorem c1_directory_error_policy (idx : Index) (entry : DirEntry) (md : Metadata)
    (rest : List (Except IoError DirEntry)) (e : IoError) :
    (entry.meta = Except.ok md → md.is_file = true → entry.content = Except.error e →
      e.kind = IoErrorKind.invalidData →
      FsIndex.index_entries idx (Except.ok entry :: rest) = FsIndex.index_entries idx rest)
  ∧ (entry.meta = Except.ok md → md.is_file = true → entry.content = Except.error e →
      e.kind ≠ IoErrorKind.invalidData →
      FsIndex.index_entries idx (Except.ok entry :: rest) = Outcome.err (Error.Io e) idx)
  ∧ (FsIndex.index_entries idx (Except.error e :: rest) = Outcome.err (Error.fromIo e) idx)
  ∧ (entry.meta = Except.error e →
      FsIndex.index_entries idx (Except.ok entry :: rest) = Outcome.err (Error.fromIo e) idx)
  ∧ (FsIndex.index_directory idx (Except.error e) = Outcome.err (Error.fromIo e) idx) := by
  obtain ⟨p, m, c, ch⟩ := entry
  refine ⟨?_, ?_, rfl, ?_, rfl⟩
  · intro hm hf hc hk
    subst hm
    subst hc
    simp [FsIndex.index_entries, FsIndex.index_file, DirEntry.meta, DirEntry.content,
      DirEntry.path, hf, fromIo_of_invalidData e hk]
  · intro hm hf hc hk
    subst hm
    subst hc
    simp [FsIndex.index_entries, FsIndex.index_file, DirEntry.meta, DirEntry.content,
      DirEntry.path, hf, fromIo_of_not_invalidData e hk]
  · intro hm
    subst hm
    simp [FsIndex.index_entries, DirEntry.meta]

/-- Witness for C1: a binary file inside a directory is skipped, a file whose
read fails with a permission error aborts with the `Io` error. -/
theorem c1_directory_error_policy_witness :
    FsIndex.index_entries emptyIdx [Except.ok entryBinary, Except.ok entryA]
      = FsIndex.index_entries emptyIdx [Except.ok entryA]
  ∧ FsIndex.index_entries emptyIdx [Except.ok entryBroken, Except.ok entryA]
      = Outcome.err (Error.Io eOther) emptyIdx
  ∧ FsIndex.index_directory emptyIdx (Except.error eOther)
      = Outcome.err (Error.fromIo eOther) emptyIdx :=
  ⟨(c1_directory_error_policy emptyIdx entryBinary { is_file := true } [Except.ok entryA] eInvalid).1
      rfl rfl rfl rfl,
   (c1_directory_error_policy emptyIdx entryBroken { is_file := true } [Except.ok entryA] eOther).2.1
      rfl rfl rfl (by decide),
   (c1_directory_error_policy emptyIdx entryA { is_file := true } [] eOther).2.2.2.2⟩

/-- Keys ever reachable by the entry loop: a key of a successful directory
ingestion is either a pre-existing key or the path of a first-level
regular-file entry of the listing. -/
theorem index_entries_keys_subset (entries : List (Except IoError DirEntry)) :
    ∀ (idx idx2 : Index), FsIndex.index_entries idx entries = Outcome.ok idx2 →
      ∀ k, k ∈ idx2.keys → k ∈ idx.keys ∨ k ∈ topLevelFileKeys entries := by
  induction entries with
  | nil =>
    intro idx idx2 h k hk
    simp [FsIndex.index_entries] at h
    subst h
    exact Or.inl hk
  | cons hd rest ih =>
    intro idx idx2 h k hk
    match hd with
    | Except.error e => simp [FsIndex.index_entries] at h
    | Except.ok (DirEntry.mk p m c ch) =>
      match m with
      | Except.error e => simp [FsIndex.index_entries, DirEntry.meta] at h
      | Except.ok md =>
        by_cases hf : md.is_file
        · match c with
          | Except.error e =>
            by_cases hk2 : e.kind = IoErrorKind.invalidData
            · rw [show FsIndex.index_entries idx (Except.ok (DirEntry.mk p (Except.ok md) (Except.error e) ch) :: rest) = FsIndex.index_entries idx rest from by
                simp [FsIndex.index_entries, FsIndex.index_file, DirEntry.meta,
                  DirEntry.content, DirEntry.path, hf, fromIo_of_invalidData e hk2]] at h
              rcases ih idx idx2 h k hk with h2 | h2
              · exact Or.inl h2
              · exact Or.inr (by simp [topLevelFileKeys, hf, h2])
            · rw [show FsIndex.index_entries idx (Except.ok (DirEntry.mk p (Except.ok md) (Except.error e) ch) :: rest) = Outcome.err (Error.Io e) idx from by
                simp [FsIndex.index_entries, FsIndex.index_file, DirEntry.meta,
                  DirEntry.content, DirEntry.path, hf, fromIo_of_not_invalidData e hk2]] at h
              exact absurd h (by simp)
          | Except.ok s =>
            by_cases hv : p.valid_utf8
            · rw [show FsIndex.index_entries idx (Except.ok (DirEntry.mk p (Except.ok md) (Except.ok s) ch) :: rest) = FsIndex.index_entries (idx.ingest p.name s) rest from by
                simp [FsIndex.index_entries, FsIndex.index_file, DirEntry.meta,
                  DirEntry.content, DirEntry.path, hf, FsPath.toStr, hv]] at h
              rcases ih (idx.ingest p.name s) idx2 h k hk with h2 | h2
              · have h3 := keys_upsert_subset idx.bloom_filters p.name k
                  (BloomFilter.build (normalize s) idx.error_rate)
                  (by simpa [Index.keys, Index.ingest] using h2)
                rcases h3 with h3 | h3
                · exact Or.inl h3
                · exact Or.inr (by simp [topLevelFileKeys, hf, h3])
              · exact Or.inr (by simp [topLevelFileKeys, hf, h2])
            · rw [show FsIndex.index_entries idx (Except.ok (DirEntry.mk p (Except.ok md) (Except.ok s) ch) :: rest) = Outcome.panicked "called Option::unwrap on a None value" idx from by
                simp [FsIndex.index_entries, FsIndex.index_file, DirEntry.meta,
                  DirEntry.content, DirEntry.path, hf, FsPath.toStr, hv]] at h
              exact absurd h (by simp)
        · rw [show FsIndex.index_entries idx (Except.ok (DirEntry.mk p (Except.ok md) c ch) :: rest) = FsIndex.index_entries idx rest from by
            simp [FsIndex.index_entries, DirEntry.meta, hf]] at h
          rcases ih idx idx2 h k hk with h2 | h2
          · exact Or.inl h2
          · exact Or.inr (by simp [topLevelFileKeys, hf, h2])

/-- Claim C6: a first-level entry that is not a regular file is silently
skipped — ingestion proceeds with the remaining entries, with no recursion
into the entry's own children and no error — and every key a successful
directory ingestion adds is the path of a first-level regular-file entry, so
no file inside a subdirectory is ever added. -/
theorem c6_first_level_only (idx : Index) (p : FsPath) (md : Metadata)
    (content : Except IoError String) (children : List DirEntry)
    (rest : List (Except IoError DirEntry)) (h : md.is_file = false) :
    FsIndex.index_entries idx (Except.ok (DirEntry.mk p (Except.ok md) content children) :: rest)
      = FsIndex.index_entries idx rest
  ∧ ∀ (entries : List (Except IoError DirEntry)) (idx2 : Index),
      FsIndex.index_entries idx entries = Outcome.ok idx2 →
      ∀ k, k ∈ idx2.keys → k ∈ idx.keys ∨ k ∈ topLevelFileKeys entries := by
  constructor
  · simp [FsIndex.index_entries, DirEntry.meta, h]
  · intro entries idx2 h2 k hk
    exact index_entries_keys_subset entries idx idx2 h2 k hk

/-- Witness for C6: a subdirectory entry (with a readable file inside) is
skipped, and the only key added by ingesting a one-file listing is that
first-level file's path. -/
theorem c6_first_level_only_witness :
    FsIndex.index_entries emptyIdx [Except.ok entrySubdir, Except.ok entryB]
      = FsIndex.index_entries emptyIdx [Except.ok entryB]
  ∧ ("a.txt" ∈ emptyIdx.keys ∨ "a.txt" ∈ topLevelFileKeys [Except.ok entryA, Except.ok entrySubdir]) :=
  ⟨(c6_first_level_only emptyIdx pathB { is_file := false } (Except.error eOther) [entryA]
      [Except.ok entryB] rfl).1,
   (c6_first_level_only emptyIdx pathB { is_file := false } (Except.error eOther) [entryA]
      [Except.ok entryB] rfl).2 [Except.ok entryA, Except.ok entrySubdir]
      (emptyIdx.ingest "a.txt" "word1 word2") (by decide) "a.txt" (by decide)⟩

instance {ε α : Type} [DecidableEq ε] [DecidableEq α] : DecidableEq (Except ε α) := fun a b =>
  match a, b with
  | Except.ok x, Except.ok y =>
    if h : x = y then isTrue (by rw [h])
    else isFalse (fun hc => h (by injection hc))
  | Except.error x, Except.error y =>
    if h : x = y then isTrue (by rw [h])
    else isFalse (fun hc => h (by injection hc))
  | Except.ok _, Except.error _ => isFalse (fun hc => Except.noConfusion hc)
  | Except.error _, Except.ok _ => isFalse (fun hc => Except.noConfusion hc)

/-- Predicate on a listing entry used by the enumeration-order theorem: its
metadata call succeeded and reports a regular file, its read succeeded, and
its path is valid UTF-8. -/
def GoodEntry (d : DirEntry) : Prop :=
  d.meta = Except.ok { is_file := true } ∧ d.content.isOk = true ∧ d.path.valid_utf8 = true

instance : DecidablePred GoodEntry := fun d => by
  unfold GoodEntry
  infer_instance

/-- Counterexample for C5: the same two file entries, enumerated in the two
possible orders, ingest to different indexes — the order of processing (and
hence of the stored keys) follows the enumeration order, so it is not the
name-sorted order and not independent of the file system's enumeration. -/
theorem c5_counterexample :
    FsIndex.index_entries emptyIdx [Except.ok entryB, Except.ok entryA]
      ≠ FsIndex.index_entries emptyIdx [Except.ok entryA, Except.ok entryB]
  ∧ (FsIndex.index_entries emptyIdx [Except.ok entryB, Except.ok entryA]).keysOf
      = some ["b.txt", "a.txt"] := by
  constructor
  · decide
  · decide

/-- Claim C5 as amended: directory entries are processed in exactly the order
the enumeration yields them — no sorting by name is applied — so for a listing
of readable regular files with fresh distinct names, the keys of the resulting
index are the previous keys followed by the entry paths in enumeration
order. -/
theorem c5_enumeration_order (entries : List DirEntry) :
    ∀ (idx : Index), (∀ d ∈ entries, GoodEntry d) →
      (idx.keys ++ entries.map (fun d => d.path.name)).Nodup →
      (FsIndex.index_entries idx (entries.map Except.ok)).keysOf
        = some (idx.keys ++ entries.map (fun d => d.path.name)) := by
  induction entries with
  | nil =>
    intro idx hgood hnodup
    simp [FsIndex.index_entries, Outcome.keysOf]
  | cons d rest ih =>
    intro idx hgood hnodup
    obtain ⟨hm, hc, hv⟩ := hgood d (List.mem_cons_self d rest)
    obtain ⟨p, m, c, ch⟩ := d
    simp only [DirEntry.meta] at hm
    simp only [DirEntry.path] at hv
    subst hm
    match c, hc with
    | Except.ok s, _ =>
      rw [show FsIndex.index_entries idx ((DirEntry.mk p (Except.ok { is_file := true }) (Except.ok s) ch :: rest).map Except.ok) = FsIndex.index_entries (idx.ingest p.name s) (rest.map Except.ok) from by
        simp [FsIndex.index_entries, FsIndex.index_file, DirEntry.meta, DirEntry.content,
          DirEntry.path, FsPath.toStr, hv]]
      have hfresh : p.name ∉ idx.keys := by
        intro hmem
        have := (List.nodup_append.mp hnodup).2.2
        exact this hmem (by simp [DirEntry.path])
      have hkeys : (idx.ingest p.name s).keys = idx.keys ++ [p.name] := by
        simpa [Index.keys, Index.ingest] using
          keys_upsert_fresh idx.bloom_filters p.name
            (BloomFilter.build (normalize s) idx.error_rate) hfresh
      have hrest := ih (idx.ingest p.name s)
        (fun d2 hd2 => hgood d2 (List.mem_cons_of_mem _ hd2))
        (by
          rw [hkeys, List.append_assoc]
          simpa [DirEntry.path] using hnodup)
      rw [hrest, hkeys, List.append_assoc]
      simp [DirEntry.path]

/-- Witness for the amended C5 at a concrete unsorted listing. -/
theorem c5_enumeration_order_witness :
    (FsIndex.index_entries emptyIdx ([entryB, entryA].map Except.ok)).keysOf
      = some (emptyIdx.keys ++ [entryB, entryA].map (fun d => d.path.name)) :=
  c5_enumeration_order [entryB, entryA] emptyIdx (by decide) (by decide)

/-- Witness for C4: an all-punctuation query, a query matching nothing, and a
matching query with its non-empty ordered result. -/
theorem c4_no_match_signal_witness :
    FsIndex.search sampleIdx "( , . ?)" = none
  ∧ FsIndex.search sampleIdx "zzz" = none
  ∧ (["a.txt"] ≠ ([] : List String) ∧ List.Sublist ["a.txt"] sampleIdx.keys) :=
  ⟨(c4_no_match_signal sampleIdx "( , . ?)").1 (by decide),
   (c4_no_match_signal sampleIdx "zzz").2.1 (by decide),
   (c4_no_match_signal sampleIdx "word1").2.2 ["a.txt"] (by decide)⟩

/-- Claim C2: restoring the dump of a well-formed index (deserialize after
serialize) reproduces the index exactly — same error rate, same document keys
in the same order, bit-for-bit identical filters — so every search on the
restored index returns the same result as on the original. Every index this
system produces is well-formed (`new_wf`, `ingest_wf`). -/
theorem c2_round_trip (idx : Index) (h : Index.WF idx) :
    deserializeIndex (serializeIndex idx) = Except.ok idx
  ∧ ∀ (idx2 : Index), deserializeIndex (serializeIndex idx) = Except.ok idx2 →
      ∀ q, FsIndex.search idx2 q = FsIndex.search idx q := by
  obtain ⟨h1, h2, h3⟩ := h
  have hchain : deserializeIndex (serializeIndex idx) = Except.ok idx := by
    simp only [deserializeIndex, serializeIndex]
    rw [if_pos ⟨h1, h2⟩]
    rw [deserializeFilters_map idx.bloom_filters h3]
  refine ⟨hchain, ?_⟩
  intro idx2 hidx2 q
  rw [hchain] at hidx2
  rw [Except.ok.inj hidx2]

/-- Witness for C2: the sample one-document index is well-formed and
round-trips exactly through the codec. -/
theorem c2_round_trip_witness :
    Index.WF sampleIdx
  ∧ deserializeIndex (serializeIndex sampleIdx) = Except.ok sampleIdx :=
  ⟨by constructor
      · decide
      · constructor
        · decide
        · decide,
   (c2_round_trip sampleIdx ⟨by decide, by decide, by decide⟩).1⟩

end CliBloom
